import Mathlib

/-!
# Verification of the kq_cx in-memory calendar cache

Shallow embedding of the repository (src/src/math.rs and src/src/lib.rs) in
Lean 4, together with proofs of the specification claims.

Conventions of the embedding:
* Rust `i32`/`i64` values are modelled as `Int`.  The only arithmetic
  operation in the source that can overflow for reachable inputs is the
  `i32` addition in `add_calendar_days` (`prev_date_index + interval` and
  `input_date + interval`); it is modelled with the explicit two's-complement
  wrap `wrap32` (Rust release semantics).  All other casts in the source
  (`len() as i32`, `usize` indices) are exact because `heapless` containers
  bound every length by `MAX_ENTRIES_PER_CALENDAR = 2^19 < 2^31`.
* Rust `/` on `i32` truncates toward zero; it is modelled by `Int.tdiv`.
  (`Int.tdiv` is total where the Rust division by zero would panic; every
  use below divides by a builder-produced page size, which is 16 or 32.)
* Fallible code returns `Option`/`Except`; a `none`/`.error` result models a
  panic (out-of-bounds index, failed `unwrap`/`expect`) or a raised
  `error!`.  The `error!` macro of pgrx aborts the current operation but
  does not roll back mutations already applied to the shared-memory maps,
  so the population model returns the state as mutated up to the error.
* Loops are modelled by structural recursion; the binary search carries a
  fuel argument equal to the loop variant `right + 1 - left`, which the
  no-panic theorems show is never exhausted.
-/

/-! ## Capacity constants (src/src/lib.rs lines 13-15) -/

def MAX_CALENDARS : Nat := 128

def MAX_ENTRIES_PER_CALENDAR : Nat := 512 * 1024

def CALENDAR_XUID_MAX_LEN : Nat := 128

/-! ## Data model (src/src/lib.rs lines 60-77) -/

/-- The `Calendar` struct of src/src/lib.rs: `dates: EntriesVec` (i32 epoch
days), `page_size: i32`, `first_page_offset: i32`, `page_map: PageMapVec`
(usize indices into `dates`). -/
structure Calendar where
  dates : List Int
  page_size : Int
  first_page_offset : Int
  page_map : List Nat
deriving DecidableEq

/-- Rust `Calendar::default()`: empty vectors, zero integers. -/
def Calendar.default : Calendar := ⟨[], 0, 0, []⟩

/-- The `CalendarControl` struct of src/src/lib.rs lines 70-75. -/
structure CalendarControl where
  calendar_count : Nat
  entry_count : Nat
  filled : Bool
deriving DecidableEq

/-- Two's-complement wrap of an `i32` addition result (Rust release-mode
overflow semantics). -/
def wrap32 (x : Int) : Int := (x + 2 ^ 31) % 2 ^ 32 - 2 ^ 31

/-! ## calculate_page_size (src/src/math.rs lines 19-27)

The source computes `(last_date - first_date) as f64 / 7.0` and compares
`entry_count as f64 > that`.  Both integers are exactly representable in
`f64` (|i32 difference| < 2^32, count ≤ 2^19), the division is correctly
rounded, and the comparison of the integer against the rounded quotient
agrees with the exact rational comparison `entry_count > (last-first)/7`
(they could only disagree if `(last-first)/7` were within one ulp of the
integer `entry_count`, which forces `last-first = 7*entry_count`, a case in
which the quotient is exact).  The exact comparison is
`7 * entry_count > last_date - first_date`, used here. -/

def calculate_page_size (first_date last_date : Int) (entry_count : Int) : Int :=
  if last_date - first_date < 7 * entry_count then 16 else 32

/-! ## left_binary_search (src/src/math.rs lines 42-52) -/

/-- One step bound of the loop `while left <= right` of `left_binary_search`:
the recursion is driven by the fuel, which `left_binary_search` sets to the
loop variant `right + 1 - left`.  Array access `arr[mid as usize]` panics
(`none`) when `mid` is negative or past the end.  Fuel exhaustion inside the
loop is also `none`; the spec lemmas show the variant-sized fuel never runs
out. -/
def lbs_go (arr : List Int) (value : Int) : Nat → Int → Int → Option Int
  | 0, left, right => if left ≤ right then none else some (left - 1)
  | fuel + 1, left, right =>
    if left ≤ right then
      let mid := left + Int.tdiv (right - left) 2
      if 0 ≤ mid then
        match arr.get? mid.toNat with
        | none => none
        | some a =>
          if a < value then lbs_go arr value fuel (mid + 1) right
          else if value < a then lbs_go arr value fuel left (mid - 1)
          else some mid
      else none
    else some (left - 1)

/-- The function `left_binary_search(arr, left, right, value)` of src/src/math.rs. -/
def left_binary_search (arr : List Int) (left right value : Int) : Option Int :=
  lbs_go arr value (right + 1 - left).toNat left right

/-! ## get_closest_index_from_left (src/src/math.rs lines 77-104) -/

/-- The function `get_closest_index_from_left(date, calendar)`.  Returns `none` exactly
when the Rust code would panic: an out-of-bounds `page_map` index (cannot
happen, the branch conditions guard it — kept as `get?` for faithfulness)
or the `usize` underflow `exclusive_end_index - 1` when the window end is
`0`. -/
def get_closest_index_from_left (date : Int) (calendar : Calendar) : Option Int :=
  let page_map_index := Int.tdiv date calendar.page_size - calendar.first_page_offset
  if (calendar.page_map.length : Int) ≤ page_map_index then
    some (-(calendar.dates.length : Int) - 1)
  else if page_map_index < 0 then
    some (-1)
  else
    match calendar.page_map.get? page_map_index.toNat with
    | none => none
    | some inclusive_start_index =>
      match (if page_map_index < (calendar.page_map.length : Int) - 1 then
              calendar.page_map.get? (page_map_index.toNat + 1)
             else
              some calendar.dates.length) with
      | none => none
      | some exclusive_end_index =>
        if exclusive_end_index = 0 then none
        else
          left_binary_search calendar.dates (inclusive_start_index : Int)
            ((exclusive_end_index : Int) - 1) date

/-! ## The sentinel dates (src/src/math.rs lines 153-154)

Modelled from the spec: the DateCodec (`PgDate::new(y, m, d).to_epoch()` of
the pgrx library, which is not part of this repository) converts a calendar
date to the signed number of days since the Postgres epoch 2000-01-01.  The
civil-calendar-to-day-count conversion below is the standard proleptic
Gregorian algorithm. -/

/-- Days since the Unix epoch 1970-01-01 of the Gregorian date `y-m-d`. -/
def days_from_civil (y m d : Int) : Int :=
  let y1 := if m ≤ 2 then y - 1 else y
  let era := y1 / 400
  let yoe := y1 - era * 400
  let mp := (m + 9) % 12
  let doy := (153 * mp + 2) / 5 + d - 1
  let doe := yoe * 365 + yoe / 4 - yoe / 100 + doy
  era * 146097 + doe - 719468

/-- Modelled from the spec: `PgDate::new(y, m, d).to_epoch()` — epoch-day
encoding of a date, relative to the Postgres epoch 2000-01-01. -/
def pg_date_to_epoch (y m d : Int) : Int :=
  days_from_civil y m d - days_from_civil 2000 1 1

/-- Source line `static DATE_PAST: i32 = PgDate::new(1970, 01, 01).to_epoch()`. -/
def DATE_PAST : Int := pg_date_to_epoch 1970 1 1

/-- Source line `static DATE_FUTURE: i32 = PgDate::new(2199, 01, 01).to_epoch()`. -/
def DATE_FUTURE : Int := pg_date_to_epoch 2199 1 1

/-! ## add_calendar_days (src/src/math.rs lines 156-178) -/

/-- The function `add_calendar_days(calendar, input_date, interval)`.  `none` models a
panic (propagated from `get_closest_index_from_left`, or the final
`.get(..).unwrap()` — the latter is guarded by the bounds checks). -/
def add_calendar_days (calendar : Calendar) (input_date interval : Int) : Option Int :=
  if calendar.dates = [] then
    some (wrap32 (input_date + interval))
  else
    match get_closest_index_from_left input_date calendar with
    | none => none
    | some prev_date_index =>
      let result_date_index := wrap32 (prev_date_index + interval)
      if prev_date_index < 0 ∨ result_date_index < 0 then
        some DATE_PAST
      else if (calendar.dates.length : Int) ≤ result_date_index then
        some DATE_FUTURE
      else
        match calendar.dates.get? result_date_index.toNat with
        | none => none
        | some v => some v

/-! ## The page-map builder (src/src/lib.rs lines 288-328)

The builder runs, for each calendar, the loop

    for calendar_date_index in 0..dates.len():
      page_index = dates[i]/page_size - first_page_offset
      while prev_page_index < page_index:
        prev_page_index += 1
        page_map.insert(prev_page_index as usize, calendar_date_index)

`page_map` starts as `[0]` with `prev_page_index = 0`; the invariant
`page_map.len() = prev_page_index + 1` holds throughout, so every
`Vec::insert` is at position `len()`, i.e. a push.  The `while` loop hence
appends `calendar_date_index` exactly `(page_index - prev_page_index).toNat`
times and leaves `prev_page_index = max prev_page_index page_index`. -/

/-- The inner `while` loop: append `calendar_date_index` to `page_map` once
per remaining page step. -/
def page_map_push (page_map : List Nat) (calendar_date_index : Nat) : Nat → List Nat
  | 0 => page_map
  | n + 1 => page_map_push (page_map ++ [calendar_date_index]) calendar_date_index n

/-- The `for` loop over `dates`, carrying the current index, the current
`prev_page_index` and the `page_map` built so far. -/
def create_page_map_go (page_size first_page_offset : Int) :
    List Int → Nat → Int → List Nat → List Nat
  | [], _, _, page_map => page_map
  | date :: rest, calendar_date_index, prev_page_index, page_map =>
    let page_index := Int.tdiv date page_size - first_page_offset
    create_page_map_go page_size first_page_offset rest (calendar_date_index + 1)
      (max prev_page_index page_index)
      (page_map_push page_map calendar_date_index (page_index - prev_page_index).toNat)

/-- The page map built at fill time (src/src/lib.rs lines 308-319). -/
def create_page_map (dates : List Int) (page_size first_page_offset : Int) : List Nat :=
  create_page_map_go page_size first_page_offset dates 0 0 [0]

/-- A calendar as produced by a successful fill for a non-empty, strictly
ascending date sequence: `page_size`, `first_page_offset` and `page_map`
are exactly what src/src/lib.rs lines 288-328 compute. -/
def Built (c : Calendar) : Prop :=
  c.dates ≠ [] ∧
  List.Pairwise (· < ·) c.dates ∧
  c.dates.length ≤ MAX_ENTRIES_PER_CALENDAR ∧
  c.page_size = calculate_page_size (c.dates.headD 0) (c.dates.getLastD 0) (c.dates.length : Int) ∧
  c.first_page_offset = Int.tdiv (c.dates.headD 0) c.page_size ∧
  c.page_map = create_page_map c.dates c.page_size c.first_page_offset

instance (c : Calendar) : Decidable (Built c) :=
  inferInstanceAs (Decidable (c.dates ≠ [] ∧
    List.Pairwise (· < ·) c.dates ∧
    c.dates.length ≤ MAX_ENTRIES_PER_CALENDAR ∧
    c.page_size = calculate_page_size (c.dates.headD 0) (c.dates.getLastD 0)
      (c.dates.length : Int) ∧
    c.first_page_offset = Int.tdiv (c.dates.headD 0) c.page_size ∧
    c.page_map = create_page_map c.dates c.page_size c.first_page_offset))

/-! ## Arithmetic and sorted-list helper lemmas -/

/-- Truncating division by a positive integer is monotone. -/
theorem tdiv_le_tdiv {b : Int} (hb : 0 < b) {a a' : Int} (h : a ≤ a') :
    a.tdiv b ≤ a'.tdiv b := by
  rcases le_or_lt 0 a with ha | ha
  · rw [Int.tdiv_eq_ediv ha hb.le, Int.tdiv_eq_ediv (le_trans ha h) hb.le]
    exact Int.ediv_le_ediv hb h
  · rcases le_or_lt 0 a' with ha' | ha'
    · have e1 : (-a).tdiv b = -(a.tdiv b) := Int.neg_tdiv a b
      have h2 : 0 ≤ (-a).tdiv b := Int.tdiv_nonneg (by omega) hb.le
      have h3 : 0 ≤ a'.tdiv b := Int.tdiv_nonneg ha' hb.le
      omega
    · have e1 : (-a).tdiv b = -(a.tdiv b) := Int.neg_tdiv a b
      have e2 : (-a').tdiv b = -(a'.tdiv b) := Int.neg_tdiv a' b
      have h4 : (-a').tdiv b ≤ (-a).tdiv b := by
        rw [Int.tdiv_eq_ediv (by omega) hb.le, Int.tdiv_eq_ediv (by omega) hb.le]
        exact Int.ediv_le_ediv hb (by omega)
      omega

/-- Bounds for the midpoint offset `(right - left) / 2`. -/
theorem tdiv_two_bounds {a : Int} (h : 0 ≤ a) : 0 ≤ a.tdiv 2 ∧ a.tdiv 2 ≤ a := by
  refine ⟨Int.tdiv_nonneg h (by omega), ?_⟩
  rw [Int.tdiv_eq_ediv h (by omega)]
  exact Int.ediv_le_self 2 h

/-- Strictly sorted list access is strictly monotone. -/
theorem sorted_getD_lt {l : List Int} (hs : List.Pairwise (· < ·) l) {i j : Nat}
    (hij : i < j) (hj : j < l.length) : l.getD i 0 < l.getD j 0 := by
  have hi : i < l.length := lt_trans hij hj
  rw [List.getD_eq_getElem l 0 hi, List.getD_eq_getElem l 0 hj]
  have h := List.pairwise_iff_get.mp hs ⟨i, hi⟩ ⟨j, hj⟩ hij
  simpa using h

/-- Strictly sorted list access is monotone. -/
theorem sorted_getD_le {l : List Int} (hs : List.Pairwise (· < ·) l) {i j : Nat}
    (hij : i ≤ j) (hj : j < l.length) : l.getD i 0 ≤ l.getD j 0 := by
  rcases Nat.eq_or_lt_of_le hij with rfl | hlt
  · exact le_refl _
  · exact le_of_lt (sorted_getD_lt hs hlt hj)

/-! ## The binary-search specification -/

/-- The loop body equation of `lbs_go` in the looping case, with the panic
guards discharged. -/
theorem lbs_go_succ_eq (arr : List Int) (value : Int) (fuel : Nat) {left right : Int}
    (hcond : left ≤ right) (h0 : 0 ≤ left) (hr : right < (arr.length : Int)) :
    lbs_go arr value (fuel + 1) left right =
      (if arr.getD (left + Int.tdiv (right - left) 2).toNat 0 < value then
        lbs_go arr value fuel (left + Int.tdiv (right - left) 2 + 1) right
      else if value < arr.getD (left + Int.tdiv (right - left) 2).toNat 0 then
        lbs_go arr value fuel left (left + Int.tdiv (right - left) 2 - 1)
      else some (left + Int.tdiv (right - left) 2)) := by
  have hb := tdiv_two_bounds (a := right - left) (by omega)
  have h0mid : 0 ≤ left + Int.tdiv (right - left) 2 := by omega
  have hlen : (left + Int.tdiv (right - left) 2).toNat < arr.length := by omega
  have hget : arr.get? (left + Int.tdiv (right - left) 2).toNat =
      some (arr.getD (left + Int.tdiv (right - left) 2).toNat 0) := by
    rw [List.getD_eq_getElem arr 0 hlen, List.get?_eq_getElem?]
    exact List.getElem?_eq_getElem hlen
  simp only [lbs_go, if_pos hcond, if_pos h0mid, hget]

/-- The loop-exit equation of `lbs_go`. -/
theorem lbs_go_exit_eq (arr : List Int) (value : Int) (fuel : Nat) {left right : Int}
    (hcond : ¬ left ≤ right) :
    lbs_go arr value fuel left right = some (left - 1) := by
  cases fuel <;> simp only [lbs_go, if_neg hcond]

/-- Full functional specification of the binary search on a strictly sorted
array: with fuel at least the loop variant, the search over the inclusive
window `[left, right]` returns `some j` where `j` is the greatest index in
`[left - 1, right]` such that every window index `i ≤ j` has `arr[i] ≤ value`
and every window index `i > j` has `arr[i] > value`. -/
theorem lbs_go_spec (arr : List Int) (value : Int) (hs : List.Pairwise (· < ·) arr) :
    ∀ (fuel : Nat) (left right : Int),
      (right + 1 - left).toNat ≤ fuel →
      0 ≤ left → right < (arr.length : Int) → left ≤ right + 1 →
      ∃ j : Int, lbs_go arr value fuel left right = some j ∧
        left - 1 ≤ j ∧ j ≤ right ∧
        ∀ i : Nat, left ≤ (i : Int) → (i : Int) ≤ right →
          (arr.getD i 0 ≤ value ↔ (i : Int) ≤ j) := by
  intro fuel
  induction fuel with
  | zero =>
    intro left right hfuel hl hr hlr
    have hcond : ¬ left ≤ right := by omega
    exact ⟨left - 1, lbs_go_exit_eq arr value 0 hcond, by omega, by omega,
      fun i h1 h2 => absurd (le_trans h1 h2) (by omega)⟩
  | succ fuel ih =>
    intro left right hfuel hl hr hlr
    by_cases hcond : left ≤ right
    · have hb := tdiv_two_bounds (a := right - left) (by omega)
      have heq := lbs_go_succ_eq arr value fuel hcond hl hr
      set mid := left + Int.tdiv (right - left) 2 with hmid
      have hmid1 : left ≤ mid := by omega
      have hmid2 : mid ≤ right := by omega
      have hmidc : (mid.toNat : Int) = mid := by omega
      rcases lt_trichotomy (arr.getD mid.toNat 0) value with hc | hc | hc
      · obtain ⟨j, hj, hj1, hj2, hj3⟩ := ih (mid + 1) right (by omega) (by omega) hr (by omega)
        refine ⟨j, ?_, by omega, hj2, ?_⟩
        · rw [heq, if_pos hc]
          exact hj
        · intro i h1 h2
          rcases le_or_lt (i : Int) mid with him | him
          · have hle : arr.getD i 0 ≤ arr.getD mid.toNat 0 :=
              sorted_getD_le hs (by omega) (by omega)
            exact ⟨fun _ => by omega, fun _ => le_of_lt (lt_of_le_of_lt hle hc)⟩
          · exact hj3 i (by omega) h2
      · refine ⟨mid, ?_, by omega, hmid2, ?_⟩
        · rw [heq, if_neg (by omega), if_neg (by omega)]
        · intro i h1 h2
          rcases le_or_lt (i : Int) mid with him | him
          · have hle : arr.getD i 0 ≤ arr.getD mid.toNat 0 :=
              sorted_getD_le hs (by omega) (by omega)
            exact ⟨fun _ => him, fun _ => le_of_le_of_eq hle hc⟩
          · have hgt : arr.getD mid.toNat 0 < arr.getD i 0 :=
              sorted_getD_lt hs (by omega) (by omega)
            exact ⟨fun hle => by omega, fun hij => by omega⟩
      · obtain ⟨j, hj, hj1, hj2, hj3⟩ := ih left (mid - 1) (by omega) hl (by omega) (by omega)
        refine ⟨j, ?_, hj1, by omega, ?_⟩
        · rw [heq, if_neg (by omega), if_pos hc]
          exact hj
        · intro i h1 h2
          rcases lt_or_le (i : Int) mid with him | him
          · exact hj3 i h1 (by omega)
          · have hge : arr.getD mid.toNat 0 ≤ arr.getD i 0 :=
              sorted_getD_le hs (by omega) (by omega)
            exact ⟨fun hle => by omega, fun hij => by omega⟩
    · exact ⟨left - 1, lbs_go_exit_eq arr value _ hcond, by omega, by omega,
        fun i h1 h2 => absurd (le_trans h1 h2) (by omega)⟩

/-! ## The page-map characterization -/

/-- The page index of the epoch day `x`: `x / page_size - first_page_offset`
(the expression of src/src/lib.rs line 314 and src/src/math.rs line 78). -/
def page_of (page_size first_page_offset x : Int) : Int :=
  Int.tdiv x page_size - first_page_offset

/-- The function `page_of` is monotone in the date for a positive page size. -/
theorem page_of_mono {ps : Int} (hps : 0 < ps) (fpo : Int) {x y : Int} (h : x ≤ y) :
    page_of ps fpo x ≤ page_of ps fpo y := by
  have := tdiv_le_tdiv hps h
  unfold page_of
  omega

/-- Strict contrapositive of `page_of_mono`: a strictly smaller page index
forces a strictly smaller date. -/
theorem lt_of_page_of_lt {ps : Int} (hps : 0 < ps) (fpo : Int) {x y : Int}
    (h : page_of ps fpo x < page_of ps fpo y) : x < y := by
  by_contra hxy
  exact absurd (page_of_mono hps fpo (not_lt.mp hxy)) (by omega)

/-- The least-index characterization of a page map: entry `k` is a valid
index into `dates`, its date reaches page `k`, and every earlier index has a
page strictly below `k`.  (Hence entry `k` is the smallest index whose page
index is at least `k`.) -/
def pm_char (dates : List Int) (ps fpo : Int) (pm : List Nat) : Prop :=
  ∀ k, k < pm.length →
    pm.getD k 0 < dates.length ∧
    (k : Int) ≤ page_of ps fpo (dates.getD (pm.getD k 0) 0) ∧
    ∀ j, j < pm.getD k 0 → page_of ps fpo (dates.getD j 0) < (k : Int)

/-- The inner while loop appends one index per page step. -/
theorem page_map_push_eq (i : Nat) : ∀ (n : Nat) (pm : List Nat),
    page_map_push pm i n = pm ++ List.replicate n i := by
  intro n
  induction n with
  | zero => intro pm; simp [page_map_push]
  | succ n ih =>
    intro pm
    rw [page_map_push, ih, List.append_assoc]
    rfl

/-- Invariant propagation through the builder loop: starting at index `n`
with `prev_page_index = prev` and a partial map `pm` satisfying the
characterization, the finished map has length `page_of (last date) + 1` and
satisfies the characterization everywhere. -/
theorem create_page_map_go_spec (dates : List Int) (ps fpo : Int) (hne : dates ≠ [])
    (hmono : ∀ i j : Nat, i ≤ j → j < dates.length →
      page_of ps fpo (dates.getD i 0) ≤ page_of ps fpo (dates.getD j 0))
    (hzero : page_of ps fpo (dates.getD 0 0) = 0) :
    ∀ (rest : List Int) (n : Nat) (prev : Int) (pm : List Nat),
      dates.drop n = rest → n ≤ dates.length → 0 ≤ prev →
      pm.length = prev.toNat + 1 →
      (0 < n → prev = page_of ps fpo (dates.getD (n - 1) 0)) →
      (n = 0 → prev = 0) →
      pm_char dates ps fpo pm →
      (create_page_map_go ps fpo rest n prev pm).length =
          (page_of ps fpo (dates.getD (dates.length - 1) 0)).toNat + 1 ∧
        pm_char dates ps fpo (create_page_map_go ps fpo rest n prev pm) := by
  intro rest
  induction rest with
  | nil =>
    intro n prev pm hdrop hn hprev hlen hprevpos hprevzero hchar
    have hlenpos : 0 < dates.length := List.length_pos.mpr hne
    have hnlen : n = dates.length := by
      have := List.drop_eq_nil_iff.mp hdrop
      omega
    have hp := hprevpos (by omega)
    refine ⟨?_, hchar⟩
    simp only [create_page_map_go]
    rw [hlen, hp, hnlen]
  | cons d rest ih =>
    intro n prev pm hdrop hn hprev hlen hprevpos hprevzero hchar
    have hlenpos : 0 < dates.length := List.length_pos.mpr hne
    have hnlt : n < dates.length := by
      by_contra hge
      rw [List.drop_eq_nil_iff.mpr (by omega)] at hdrop
      exact List.cons_ne_nil d rest hdrop.symm
    have hcons : dates.drop n = dates.getD n 0 :: dates.drop (n + 1) := by
      rw [List.getD_eq_getElem dates 0 hnlt]
      exact List.drop_eq_getElem_cons hnlt
    rw [hdrop] at hcons
    obtain ⟨hd, hrest⟩ : d = dates.getD n 0 ∧ rest = dates.drop (n + 1) := by
      exact ⟨(List.cons.injEq _ _ _ _ ▸ hcons).1, (List.cons.injEq _ _ _ _ ▸ hcons).2⟩
    have hpgn : Int.tdiv d ps - fpo = page_of ps fpo (dates.getD n 0) := by
      rw [hd]; rfl
    have hprevle : prev ≤ page_of ps fpo (dates.getD n 0) := by
      rcases Nat.eq_zero_or_pos n with hn0 | hn0
      · rw [hprevzero hn0, hn0]; omega
      · rw [hprevpos hn0]
        exact hmono (n - 1) n (by omega) hnlt
    have hstep : create_page_map_go ps fpo (d :: rest) n prev pm =
        create_page_map_go ps fpo rest (n + 1) (max prev (Int.tdiv d ps - fpo))
          (page_map_push pm n ((Int.tdiv d ps - fpo) - prev).toNat) := by
      simp only [create_page_map_go]
    rw [hstep]
    have hmax : max prev (Int.tdiv d ps - fpo) = page_of ps fpo (dates.getD n 0) := by
      rw [hpgn]
      omega
    rw [hmax, page_map_push_eq, hpgn]
    set pgn := page_of ps fpo (dates.getD n 0) with hpgndef
    have hpgn0 : 0 ≤ pgn := le_trans hprev hprevle
    apply ih (n + 1) pgn (pm ++ List.replicate (pgn - prev).toNat n) hrest.symm
      (by omega) hpgn0
    · rw [List.length_append, List.length_replicate, hlen]
      omega
    · intro _
      simpa using hpgndef
    · omega
    · intro k hk
      rw [List.length_append, List.length_replicate] at hk
      rcases lt_or_le k pm.length with hkpm | hkpm
      · have hgd : (pm ++ List.replicate (pgn - prev).toNat n).getD k 0 = pm.getD k 0 := by
          rw [List.getD_eq_getElem _ 0 (by rw [List.length_append, List.length_replicate]; omega),
            List.getD_eq_getElem _ 0 hkpm]
          exact List.getElem_append_left hkpm
        rw [hgd]
        exact hchar k hkpm
      · have hklt : k - pm.length < (pgn - prev).toNat := by omega
        have hgd : (pm ++ List.replicate (pgn - prev).toNat n).getD k 0 = n := by
          rw [List.getD_eq_getElem _ 0 (by rw [List.length_append, List.length_replicate]; omega)]
          rw [List.getElem_append_right hkpm]
          simp
        rw [hgd]
        refine ⟨hnlt, by omega, ?_⟩
        intro j hj
        have hjle : page_of ps fpo (dates.getD j 0) ≤ prev := by
          rcases Nat.eq_zero_or_pos n with hn0 | hn0
          · omega
          · rw [hprevpos hn0]
            exact hmono j (n - 1) (by omega) (by omega)
        omega

/-- The builder output for a sorted non-empty date list: the page map has
`page_of (last date) + 1` entries and satisfies the least-index
characterization. -/
theorem create_page_map_spec (dates : List Int) (ps fpo : Int) (hps : 0 < ps)
    (hne : dates ≠ []) (hs : List.Pairwise (· < ·) dates)
    (hfpo : fpo = Int.tdiv (dates.getD 0 0) ps) :
    (create_page_map dates ps fpo).length =
        (page_of ps fpo (dates.getD (dates.length - 1) 0)).toNat + 1 ∧
      pm_char dates ps fpo (create_page_map dates ps fpo) := by
  have hlenpos : 0 < dates.length := List.length_pos.mpr hne
  have hmono : ∀ i j : Nat, i ≤ j → j < dates.length →
      page_of ps fpo (dates.getD i 0) ≤ page_of ps fpo (dates.getD j 0) :=
    fun i j hij hj => page_of_mono hps fpo (sorted_getD_le hs hij hj)
  have hzero : page_of ps fpo (dates.getD 0 0) = 0 := by
    unfold page_of
    omega
  apply create_page_map_go_spec dates ps fpo hne hmono hzero dates 0 0 [0] rfl
    (by omega) le_rfl rfl (by omega) (fun h => rfl)
  intro k hk
  have hk0 : k = 0 := by simpa using hk
  subst hk0
  refine ⟨by simpa using hlenpos, by simpa using le_of_eq hzero.symm, ?_⟩
  intro j hj
  simp [List.getD] at hj

/-- A page map satisfying the characterization is monotone. -/
theorem pm_char_mono {dates : List Int} {ps fpo : Int} {pm : List Nat}
    (h : pm_char dates ps fpo pm) {k k' : Nat} (hkk : k ≤ k') (hk' : k' < pm.length) :
    pm.getD k 0 ≤ pm.getD k' 0 := by
  by_contra hlt
  obtain ⟨_, _, hk3⟩ := h k (lt_of_le_of_lt hkk hk')
  obtain ⟨_, hk2', _⟩ := h k' hk'
  have := hk3 (pm.getD k' 0) (by omega)
  omega

/-- Entries of a characterized page map at positions `k ≥ 1` are at least 1
(entry 0 of `dates` lives on page 0). -/
theorem pm_char_pos {dates : List Int} {ps fpo : Int} {pm : List Nat}
    (h : pm_char dates ps fpo pm) (hzero : page_of ps fpo (dates.getD 0 0) = 0)
    {k : Nat} (hk1 : 1 ≤ k) (hk : k < pm.length) : 1 ≤ pm.getD k 0 := by
  by_contra h0
  obtain ⟨_, hk2, _⟩ := h k hk
  have he : pm.getD k 0 = 0 := by omega
  rw [he, hzero] at hk2
  omega

/-- The function `calculate_page_size` returns 16 or 32, hence is positive. -/
theorem calculate_page_size_pos (f l e : Int) : 0 < calculate_page_size f l e := by
  unfold calculate_page_size
  split <;> omega

theorem headD_eq_getD (l : List Int) : l.headD 0 = l.getD 0 0 := by
  cases l <;> rfl

theorem getLastD_eq_getD {l : List Int} (h : l ≠ []) :
    l.getLastD 0 = l.getD (l.length - 1) 0 := by
  have hl : 0 < l.length := List.length_pos.mpr h
  rw [List.getD_eq_getElem _ _ (by omega : l.length - 1 < l.length),
    List.getLastD_eq_getLast?, List.getLast?_eq_getElem?,
    List.getElem?_eq_getElem (by omega : l.length - 1 < l.length)]
  rfl

/-! ## Unfolding equations for get_closest_index_from_left -/

theorem gcifl_eq_past_end {c : Calendar} {d : Int}
    (h : (c.page_map.length : Int) ≤ Int.tdiv d c.page_size - c.first_page_offset) :
    get_closest_index_from_left d c = some (-(c.dates.length : Int) - 1) := by
  unfold get_closest_index_from_left
  rw [if_pos h]

theorem gcifl_eq_before_start {c : Calendar} {d : Int}
    (h1 : ¬ (c.page_map.length : Int) ≤ Int.tdiv d c.page_size - c.first_page_offset)
    (h2 : Int.tdiv d c.page_size - c.first_page_offset < 0) :
    get_closest_index_from_left d c = some (-1) := by
  unfold get_closest_index_from_left
  rw [if_neg h1, if_pos h2]

theorem gcifl_eq_search {c : Calendar} {d : Int} {L E : Nat}
    (h1 : ¬ (c.page_map.length : Int) ≤ Int.tdiv d c.page_size - c.first_page_offset)
    (h2 : ¬ Int.tdiv d c.page_size - c.first_page_offset < 0)
    (hL : c.page_map.get? (Int.tdiv d c.page_size - c.first_page_offset).toNat = some L)
    (hE : (if Int.tdiv d c.page_size - c.first_page_offset < (c.page_map.length : Int) - 1 then
            c.page_map.get? ((Int.tdiv d c.page_size - c.first_page_offset).toNat + 1)
          else some c.dates.length) = some E)
    (hE0 : E ≠ 0) :
    get_closest_index_from_left d c =
      left_binary_search c.dates (L : Int) ((E : Int) - 1) d := by
  unfold get_closest_index_from_left
  rw [if_neg h1, if_neg h2, hL]
  simp only [hE, if_neg hE0]

/-! ## The main characterization of get_closest_index_from_left -/

/-- For a built calendar: if the requested date's page index is at or past
the end of the page map, the result is the past-the-end sentinel
`-(len) - 1`; otherwise the result is `some j` where `j ∈ [-1, len)` is the
greatest index with `dates[j] ≤ d` (with `j = -1` meaning every date is
greater than `d`). -/
theorem closest_char (c : Calendar) (hb : Built c) (d : Int) :
    ((c.page_map.length : Int) ≤ page_of c.page_size c.first_page_offset d →
      get_closest_index_from_left d c = some (-(c.dates.length : Int) - 1)) ∧
    (page_of c.page_size c.first_page_offset d < (c.page_map.length : Int) →
      ∃ j : Int, get_closest_index_from_left d c = some j ∧ -1 ≤ j ∧
        j < (c.dates.length : Int) ∧
        ∀ i : Nat, i < c.dates.length → (c.dates.getD i 0 ≤ d ↔ (i : Int) ≤ j)) := by
  obtain ⟨hne, hsorted, hlenb, hps_eq, hfpo, hpm⟩ := hb
  have hps : 0 < c.page_size := by
    rw [hps_eq]
    exact calculate_page_size_pos _ _ _
  have hfpo' : c.first_page_offset = Int.tdiv (c.dates.getD 0 0) c.page_size := by
    rw [hfpo, headD_eq_getD]
  obtain ⟨hlen_pm, hchar⟩ :=
    create_page_map_spec c.dates c.page_size c.first_page_offset hps hne hsorted hfpo'
  rw [← hpm] at hlen_pm hchar
  have hzero : page_of c.page_size c.first_page_offset (c.dates.getD 0 0) = 0 := by
    unfold page_of
    omega
  have hn : 0 < c.dates.length := List.length_pos.mpr hne
  have hpmi_def : Int.tdiv d c.page_size - c.first_page_offset =
      page_of c.page_size c.first_page_offset d := rfl
  constructor
  · intro hout
    exact gcifl_eq_past_end (by omega)
  · intro hin
    rcases lt_or_le (page_of c.page_size c.first_page_offset d) 0 with hneg | hpos
    · refine ⟨-1, gcifl_eq_before_start (by omega) (by omega), by omega, by omega, ?_⟩
      intro i hi
      have hpgi : page_of c.page_size c.first_page_offset d <
          page_of c.page_size c.first_page_offset (c.dates.getD i 0) := by
        have h0i : page_of c.page_size c.first_page_offset (c.dates.getD 0 0) ≤
            page_of c.page_size c.first_page_offset (c.dates.getD i 0) :=
          page_of_mono hps _ (sorted_getD_le hsorted (Nat.zero_le i) hi)
        omega
      have hdi : d < c.dates.getD i 0 := lt_of_page_of_lt hps _ hpgi
      exact ⟨fun hle => by omega, fun hij => by omega⟩
    · -- the searching branch
      set pmi := page_of c.page_size c.first_page_offset d with hpmi
      have hk : pmi.toNat < c.page_map.length := by omega
      have hL : c.page_map.get? pmi.toNat = some (c.page_map.getD pmi.toNat 0) := by
        rw [List.get?_eq_getElem?, List.getElem?_eq_getElem hk,
          List.getD_eq_getElem _ _ hk]
      obtain ⟨hLlen, hLpage, hLleast⟩ := hchar pmi.toNat hk
      set L := c.page_map.getD pmi.toNat 0 with hLdef
      have hlow : ∀ i : Nat, i < L → c.dates.getD i 0 < d := by
        intro i hiL
        refine lt_of_page_of_lt hps c.first_page_offset ?_
        have := hLleast i hiL
        omega
      rcases lt_or_le pmi ((c.page_map.length : Int) - 1) with hEcase | hEcase
      · -- window ends at page_map[pmi + 1]
        have hk1 : pmi.toNat + 1 < c.page_map.length := by omega
        obtain ⟨hElen, hEpage, hEleast⟩ := hchar (pmi.toNat + 1) hk1
        set E := c.page_map.getD (pmi.toNat + 1) 0 with hEdef
        have hE : (if pmi < (c.page_map.length : Int) - 1 then
              c.page_map.get? (pmi.toNat + 1)
            else some c.dates.length) = some E := by
          rw [if_pos hEcase, List.get?_eq_getElem?, List.getElem?_eq_getElem hk1, hEdef,
            List.getD_eq_getElem _ _ hk1]
        have hE1 : 1 ≤ E :=
          pm_char_pos hchar hzero (by omega) hk1
        have hLE : L ≤ E := pm_char_mono hchar (Nat.le_succ _) hk1
        have hhigh : ∀ i : Nat, E ≤ i → i < c.dates.length → d < c.dates.getD i 0 := by
          intro i hiE hi
          refine lt_of_page_of_lt hps c.first_page_offset ?_
          have hEi : page_of c.page_size c.first_page_offset (c.dates.getD E 0) ≤
              page_of c.page_size c.first_page_offset (c.dates.getD i 0) :=
            page_of_mono hps _ (sorted_getD_le hsorted hiE hi)
          omega
        obtain ⟨j, hj, hj1, hj2, hj3⟩ := lbs_go_spec c.dates d hsorted
          (((E : Int) - 1) + 1 - (L : Int)).toNat (L : Int) ((E : Int) - 1)
          le_rfl (by omega) (by omega) (by omega)
        refine ⟨j, ?_, by omega, by omega, ?_⟩
        · rw [gcifl_eq_search (by omega) (by omega) hL hE (by omega)]
          exact hj
        · intro i hi
          rcases lt_or_le i L with hiL | hiL
          · have := hlow i hiL
            exact ⟨fun _ => by omega, fun _ => by omega⟩
          · rcases lt_or_le (i : Int) (E : Int) with hiE | hiE
            · exact hj3 i (by omega) (by omega)
            · have := hhigh i (by omega) hi
              exact ⟨fun hle => by omega, fun hij => by omega⟩
      · -- last page: window ends at dates.len()
        have hE : (if pmi < (c.page_map.length : Int) - 1 then
              c.page_map.get? (pmi.toNat + 1)
            else some c.dates.length) = some c.dates.length := by
          rw [if_neg (by omega)]
        obtain ⟨j, hj, hj1, hj2, hj3⟩ := lbs_go_spec c.dates d hsorted
          (((c.dates.length : Int) - 1) + 1 - (L : Int)).toNat (L : Int)
          ((c.dates.length : Int) - 1)
          le_rfl (by omega) (by omega) (by omega)
        refine ⟨j, ?_, by omega, by omega, ?_⟩
        · rw [gcifl_eq_search (by omega) (by omega) hL hE (by omega)]
          exact hj
        · intro i hi
          rcases lt_or_le i L with hiL | hiL
          · have := hlow i hiL
            exact ⟨fun _ => by omega, fun _ => by omega⟩
          · exact hj3 i (by omega) (by omega)

/-- Basic facts about a built calendar: positive page size, non-negative
page index of the last date, and the page-map length equation. -/
theorem built_pm_len (c : Calendar) (hb : Built c) :
    0 < c.page_size ∧
    0 ≤ page_of c.page_size c.first_page_offset (c.dates.getD (c.dates.length - 1) 0) ∧
    (c.page_map.length : Int) =
      page_of c.page_size c.first_page_offset (c.dates.getD (c.dates.length - 1) 0) + 1 := by
  obtain ⟨hne, hsorted, hlenb, hps_eq, hfpo, hpm⟩ := hb
  have hps : 0 < c.page_size := by
    rw [hps_eq]
    exact calculate_page_size_pos _ _ _
  have hfpo' : c.first_page_offset = Int.tdiv (c.dates.getD 0 0) c.page_size := by
    rw [hfpo, headD_eq_getD]
  obtain ⟨hlen_pm, _⟩ :=
    create_page_map_spec c.dates c.page_size c.first_page_offset hps hne hsorted hfpo'
  rw [← hpm] at hlen_pm
  have hn : 0 < c.dates.length := List.length_pos.mpr hne
  have hlast0 : 0 ≤ page_of c.page_size c.first_page_offset
      (c.dates.getD (c.dates.length - 1) 0) := by
    have h0 : page_of c.page_size c.first_page_offset (c.dates.getD 0 0) = 0 := by
      unfold page_of
      omega
    have := page_of_mono hps c.first_page_offset
      (sorted_getD_le hsorted (Nat.zero_le (c.dates.length - 1)) (by omega))
    omega
  exact ⟨hps, hlast0, by omega⟩

/-! ## Claim C1 -/

/-- C1: for every built calendar (non-empty, strictly ascending dates, page
index produced by the fill-time builder) and every date `d` with
`dates[0] ≤ d ≤ dates[last]`, `get_closest_index_from_left` returns the
largest index `i` with `dates[i] ≤ d`; in particular an exact match returns
its own index. -/
theorem c1_floor_search_correct (c : Calendar) (hb : Built c) (d : Int)
    (hlo : c.dates.headD 0 ≤ d) (hhi : d ≤ c.dates.getLastD 0) :
    ∃ jn : Nat, get_closest_index_from_left d c = some (jn : Int) ∧
      jn < c.dates.length ∧ c.dates.getD jn 0 ≤ d ∧
      (∀ i : Nat, i < c.dates.length → (c.dates.getD i 0 ≤ d ↔ i ≤ jn)) ∧
      (∀ i : Nat, i < c.dates.length → d = c.dates.getD i 0 →
        get_closest_index_from_left d c = some (i : Int)) := by
  have hne := hb.1
  have hsorted := hb.2.1
  have hn : 0 < c.dates.length := List.length_pos.mpr hne
  obtain ⟨hps, hlast0, hlen_pm⟩ := built_pm_len c hb
  rw [getLastD_eq_getD hne] at hhi
  rw [headD_eq_getD] at hlo
  have hin : page_of c.page_size c.first_page_offset d < (c.page_map.length : Int) := by
    have := page_of_mono hps c.first_page_offset hhi
    omega
  obtain ⟨j, hj, hj1, hj2, hj3⟩ := (closest_char c hb d).2 hin
  have hj0 : 0 ≤ j := by
    have := (hj3 0 hn).mp hlo
    omega
  refine ⟨j.toNat, by rw [hj]; congr 1; omega, by omega, ?_, ?_, ?_⟩
  · exact (hj3 j.toNat (by omega)).mpr (by omega)
  · intro i hi
    have := hj3 i hi
    constructor
    · intro hle
      have := this.mp hle
      omega
    · intro hle
      exact this.mpr (by omega)
  · intro i hi hd
    have hji : (i : Int) ≤ j := (hj3 i hi).mp (le_of_eq hd.symm)
    have hij : j ≤ (i : Int) := by
      by_contra hlt
      have hmem : c.dates.getD j.toNat 0 ≤ d := (hj3 j.toNat (by omega)).mpr (by omega)
      have : c.dates.getD i 0 < c.dates.getD j.toNat 0 :=
        sorted_getD_lt hsorted (by omega) (by omega)
      omega
    rw [hj]
    congr 1
    omega

/-- C1 witness: the scenario calendar `[0, 20, 40]` (built with page size 32
and page map `[0, 2]`) at the in-between date 25: the floor index is 1. -/
theorem c1_witness :
    Built (Calendar.mk [0, 20, 40] 32 0 [0, 2]) ∧
    ∃ jn : Nat,
      get_closest_index_from_left 25 (Calendar.mk [0, 20, 40] 32 0 [0, 2]) = some (jn : Int) ∧
      jn < 3 ∧
      (Calendar.mk [0, 20, 40] 32 0 [0, 2]).dates.getD jn 0 ≤ 25 ∧
      (∀ i : Nat, i < 3 →
        ((Calendar.mk [0, 20, 40] 32 0 [0, 2]).dates.getD i 0 ≤ 25 ↔ i ≤ jn)) ∧
      (∀ i : Nat, i < 3 →
        (25 : Int) = (Calendar.mk [0, 20, 40] 32 0 [0, 2]).dates.getD i 0 →
        get_closest_index_from_left 25 (Calendar.mk [0, 20, 40] 32 0 [0, 2]) = some (i : Int)) :=
  ⟨by decide, c1_floor_search_correct _ (by decide) 25 (by decide) (by decide)⟩

/-! ## Claim C2 -/

/-- C2 counterexample: for the built one-date calendar `[0]` (page size 16,
page map `[0]`), the date 5 is strictly greater than the last date 0, yet
`get_closest_index_from_left` returns `some 0` (the last index), not the
claimed sentinel `-(len) - 1 = -2`: a date past the last date but still on
the last page goes through the binary search. -/
theorem c2_counterexample :
    Built (Calendar.mk [0] 16 0 [0]) ∧
    (0 : Int) < 5 ∧
    get_closest_index_from_left 5 (Calendar.mk [0] 16 0 [0]) = some 0 ∧
    get_closest_index_from_left 5 (Calendar.mk [0] 16 0 [0]) ≠ some (-2) := by
  refine ⟨by decide, by decide, by decide, by decide⟩

/-- C2 amended: for every built calendar, `get_closest_index_from_left`
returns `-1` for every `d < dates[0]`; it returns `-(len) - 1` exactly for
the dates whose page index is at or past the end of the page map; for
`d > dates[last]` still on the last page it returns `len - 1` (the last
index). -/
theorem c2_amended (c : Calendar) (hb : Built c) :
    (∀ d : Int, d < c.dates.headD 0 → get_closest_index_from_left d c = some (-1)) ∧
    (∀ d : Int, (c.page_map.length : Int) ≤ page_of c.page_size c.first_page_offset d →
      get_closest_index_from_left d c = some (-(c.dates.length : Int) - 1)) ∧
    (∀ d : Int, c.dates.getLastD 0 < d →
      page_of c.page_size c.first_page_offset d < (c.page_map.length : Int) →
      get_closest_index_from_left d c = some ((c.dates.length : Int) - 1)) := by
  have hne := hb.1
  have hsorted := hb.2.1
  have hn : 0 < c.dates.length := List.length_pos.mpr hne
  obtain ⟨hps, hlast0, hlen_pm⟩ := built_pm_len c hb
  refine ⟨?_, ?_, ?_⟩
  · intro d hd
    rw [headD_eq_getD] at hd
    have hin : page_of c.page_size c.first_page_offset d < (c.page_map.length : Int) := by
      have := page_of_mono hps c.first_page_offset hd.le
      have h0 : page_of c.page_size c.first_page_offset (c.dates.getD 0 0) ≤
          page_of c.page_size c.first_page_offset (c.dates.getD (c.dates.length - 1) 0) :=
        page_of_mono hps c.first_page_offset
          (sorted_getD_le hsorted (Nat.zero_le _) (by omega))
      omega
    obtain ⟨j, hj, hj1, hj2, hj3⟩ := (closest_char c hb d).2 hin
    have hj0 : j < 0 := by
      have h00 : ¬ c.dates.getD 0 0 ≤ d := by omega
      have := (hj3 0 hn)
      omega
    rw [hj]
    congr 1
    omega
  · intro d hd
    exact (closest_char c hb d).1 hd
  · intro d hd hin
    rw [getLastD_eq_getD hne] at hd
    obtain ⟨j, hj, hj1, hj2, hj3⟩ := (closest_char c hb d).2 hin
    have hlastj : ((c.dates.length - 1 : Nat) : Int) ≤ j :=
      (hj3 (c.dates.length - 1) (by omega)).mp (by omega)
    rw [hj]
    congr 1
    omega

/-- C2 amended witness: the one-date calendar `[0]`: `-7` (before the first
page) gives `-1`, `100` (past the last page) gives `-2`, and `5` (past the
last date, same page) gives `0 = len - 1`. -/
theorem c2_amended_witness :
    Built (Calendar.mk [0] 16 0 [0]) ∧
    get_closest_index_from_left (-7) (Calendar.mk [0] 16 0 [0]) = some (-1) ∧
    get_closest_index_from_left 100 (Calendar.mk [0] 16 0 [0]) = some (-2) ∧
    get_closest_index_from_left 5 (Calendar.mk [0] 16 0 [0]) = some 0 :=
  ⟨by decide,
    (c2_amended _ (by decide)).1 (-7) (by decide),
    (c2_amended _ (by decide)).2.1 100 (by decide),
    (c2_amended _ (by decide)).2.2 5 (by decide) (by decide)⟩

/-! ## Claim C3 -/

/-- C3: for every built (hence non-empty) calendar and arbitrary `i32`
inputs, `add_calendar_days` never panics (always returns `some`), and the
result is either an element of `dates` or one of the two fixed sentinel
dates. -/
theorem c3_saturation (c : Calendar) (hb : Built c) (input_date interval : Int) :
    ∃ r : Int, add_calendar_days c input_date interval = some r ∧
      (r ∈ c.dates ∨ r = DATE_PAST ∨ r = DATE_FUTURE) := by
  have hne := hb.1
  have hn : 0 < c.dates.length := List.length_pos.mpr hne
  rcases le_or_lt (c.page_map.length : Int)
      (page_of c.page_size c.first_page_offset input_date) with hout | hin
  · have hj := (closest_char c hb input_date).1 hout
    refine ⟨DATE_PAST, ?_, Or.inr (Or.inl rfl)⟩
    unfold add_calendar_days
    rw [if_neg hne, hj]
    simp only [Option.some.injEq]
    rw [if_pos (Or.inl (by omega))]
  · obtain ⟨j, hj, hj1, hj2, hj3⟩ := (closest_char c hb input_date).2 hin
    rcases lt_or_le j 0 with hjneg | hjpos
    · refine ⟨DATE_PAST, ?_, Or.inr (Or.inl rfl)⟩
      unfold add_calendar_days
      rw [if_neg hne, hj]
      simp only [Option.some.injEq]
      rw [if_pos (Or.inl hjneg)]
    · rcases lt_or_le (wrap32 (j + interval)) 0 with hrneg | hrpos
      · refine ⟨DATE_PAST, ?_, Or.inr (Or.inl rfl)⟩
        unfold add_calendar_days
        rw [if_neg hne, hj]
        simp only [Option.some.injEq]
        rw [if_pos (Or.inr hrneg)]
      · rcases le_or_lt (c.dates.length : Int) (wrap32 (j + interval)) with hbig | hsmall
        · refine ⟨DATE_FUTURE, ?_, Or.inr (Or.inr rfl)⟩
          unfold add_calendar_days
          rw [if_neg hne, hj]
          simp only [Option.some.injEq]
          rw [if_neg (by omega), if_pos hbig]
        · have hidx : (wrap32 (j + interval)).toNat < c.dates.length := by omega
          refine ⟨c.dates.getD (wrap32 (j + interval)).toNat 0, ?_, Or.inl ?_⟩
          · unfold add_calendar_days
            rw [if_neg hne, hj]
            simp only [Option.some.injEq]
            rw [if_neg (by omega), if_neg (by omega), List.get?_eq_getElem?,
              List.getElem?_eq_getElem hidx, List.getD_eq_getElem _ _ hidx]
          · rw [List.getD_eq_getElem _ _ hidx]
            exact List.getElem_mem hidx

/-- C3 witness: the one-date calendar, input 5, interval 0: the result is
`dates[0] = 0`, an element of the calendar. -/
theorem c3_witness :
    Built (Calendar.mk [0] 16 0 [0]) ∧
    ∃ r : Int, add_calendar_days (Calendar.mk [0] 16 0 [0]) 5 0 = some r ∧
      (r ∈ (Calendar.mk [0] 16 0 [0]).dates ∨ r = DATE_PAST ∨ r = DATE_FUTURE) :=
  ⟨by decide, c3_saturation _ (by decide) 5 0⟩

/-! ## Claim C8 -/

/-- C8: on a calendar whose date list is empty, `add_calendar_days` is the
raw (wrapping `i32`) addition `input_date + interval`; no index lookup is
performed. -/
theorem c8_empty_calendar (c : Calendar) (h : c.dates = []) (input_date interval : Int) :
    add_calendar_days c input_date interval = some (wrap32 (input_date + interval)) := by
  unfold add_calendar_days
  rw [if_pos h]

/-- C8 witness: the default (empty) calendar at date 10, interval 5. -/
theorem c8_witness : add_calendar_days Calendar.default 10 5 = some 15 := by
  rw [c8_empty_calendar Calendar.default rfl 10 5]
  decide

/-! ## Claim C10 -/

/-- C10: the two sentinel dates are fixed constants, the epoch-day encodings
of 1970-01-01 (`-10957` relative to the Postgres epoch 2000-01-01) and
2199-01-01 (`72684`); neither is the minimum/maximum representable `i32`
date, and `add_calendar_days` returns exactly these constants when it
saturates. -/
theorem c10_sentinel_constants :
    DATE_PAST = pg_date_to_epoch 1970 1 1 ∧ DATE_PAST = -10957 ∧
    DATE_FUTURE = pg_date_to_epoch 2199 1 1 ∧ DATE_FUTURE = 72684 ∧
    DATE_PAST ≠ -(2 ^ 31) ∧ DATE_FUTURE ≠ 2 ^ 31 - 1 ∧
    add_calendar_days (Calendar.mk [0] 16 0 [0]) 5 (-10) = some DATE_PAST ∧
    add_calendar_days (Calendar.mk [0] 16 0 [0]) 5 10 = some DATE_FUTURE := by
  refine ⟨rfl, by decide, rfl, by decide, by decide, by decide, by decide, by decide⟩

/-! ## The cache-population model (src/src/lib.rs lines 142-337)

The shared state consists of the two `heapless::FnvIndexMap`s (modelled as
insertion-ordered association lists, which is how `FnvIndexMap` iterates)
and the `CalendarControl`.  The `DataSource` collaborator bundles what the
three SPI queries return: the schema validation bit (Q1), the per-calendar
enumeration rows `(calendar_id, entry_count, xuid)` of Q3 and the
`(calendar_id, date)` entry rows of Q4.  Entry counts are `COUNT(*)`
results, hence non-negative (`Nat`).

`error!`/failed `expect` aborts the operation; shared-memory mutations
already performed are kept (pgrx releases the lock guards during unwinding
but performs no rollback), so every error path returns the maps as mutated
so far, and the control word is only ever written on the success path. -/

inductive PopError where
  | incompatible_db : PopError
  | too_many_entries : Int → PopError
  | map_insert_failed : PopError
  | calendar_missing : Int → PopError
  | cannot_add_entries : Int → PopError
  | count_mismatch : Nat → Nat → PopError
  | page_size_zero : PopError
  | no_first_date : PopError
  | page_map_overflow : PopError
deriving DecidableEq

/-- The shared cache state: `CALENDAR_ID_MAP`, `CALENDAR_XUID_ID_MAP`,
`CALENDAR_CONTROL` (src/src/lib.rs lines 81-83). -/
structure CacheState where
  calendar_id_map : List (Int × Calendar)
  calendar_xuid_id_map : List (String × Int)
  control : CalendarControl
deriving DecidableEq

/-- The state at process start and after invalidation. -/
def empty_state : CacheState := ⟨[], [], ⟨0, 0, false⟩⟩

/-- What the DataSource (the SPI queries) provides for one population run. -/
structure DataSource where
  schema_ok : Bool
  calendars : List (Int × Nat × String)
  entries : List (Int × Int)
deriving DecidableEq

/-- Lookup in an association-list map (`FnvIndexMap::get`). -/
def map_get {K V : Type} [DecidableEq K] : List (K × V) → K → Option V
  | [], _ => none
  | (k', v) :: rest, k => if k' = k then some v else map_get rest k

/-- Model of `FnvIndexMap::insert(k, v).unwrap()`: replaces in place when the key is
present, appends when there is room, and fails (`none`, modelling the
`unwrap` panic) when the map is full and the key is new. -/
def map_insert {K V : Type} [DecidableEq K] (m : List (K × V)) (k : K) (v : V)
    (cap : Nat) : Option (List (K × V)) :=
  if k ∈ m.map Prod.fst then
    some (m.map (fun p => if p.1 = k then (k, v) else p))
  else if m.length < cap then
    some (m ++ [(k, v)])
  else
    none

/-- In-place update of the value stored under a key (`get_mut` followed by
mutation); no-op when the key is absent. -/
def map_update {K V : Type} [DecidableEq K] : List (K × V) → K → V → List (K × V)
  | [], _, _ => []
  | (k', v') :: rest, k, v =>
    if k' = k then (k, v) :: rest else (k', v') :: map_update rest k v

/-- Phase 1 (src/src/lib.rs lines 154-200): walk the Q3 rows, reject
oversized calendars, insert a default `Calendar` under the id and the id
under the xuid, and accumulate the calendar count and the total entry
count. -/
def phase1 :
    List (Int × Nat × String) → List (Int × Calendar) → List (String × Int) → Nat → Nat →
      Option PopError × List (Int × Calendar) × List (String × Int) × Nat × Nat
  | [], idm, xm, cc, tec => (none, idm, xm, cc, tec)
  | (id, entry_count, xuid) :: rest, idm, xm, cc, tec =>
    if MAX_ENTRIES_PER_CALENDAR < entry_count then
      (some (.too_many_entries id), idm, xm, cc, tec)
    else
      match map_insert idm id Calendar.default MAX_CALENDARS with
      | none => (some .map_insert_failed, idm, xm, cc, tec)
      | some idm' =>
        match map_insert xm xuid id MAX_CALENDARS with
        | none => (some .map_insert_failed, idm', xm, cc, tec)
        | some xm' => phase1 rest idm' xm' (cc + 1) (tec + entry_count)

/-- The per-calendar flush of phase 2 (src/src/lib.rs lines 233-251 and
259-277): look the previous calendar up (`error!` if it was never
enumerated), `extend_from_slice` the buffered dates (`error!` when the
capacity would be exceeded; `heapless` checks capacity before copying, so a
failed extend leaves the vector unchanged), and add the calendar's new total
length to `total_entries`. -/
def flush_calendar (idm : List (Int × Calendar)) (prev_calendar_id : Int)
    (buf : List Int) (total : Nat) :
    Except (PopError × List (Int × Calendar)) (List (Int × Calendar) × Nat) :=
  match map_get idm prev_calendar_id with
  | none => .error (.calendar_missing prev_calendar_id, idm)
  | some cal =>
    if MAX_ENTRIES_PER_CALENDAR < cal.dates.length + buf.length then
      .error (.cannot_add_entries prev_calendar_id, idm)
    else
      .ok (map_update idm prev_calendar_id { cal with dates := cal.dates ++ buf },
        total + (cal.dates ++ buf).length)

/-- Phase 2 (src/src/lib.rs lines 202-283): group the Q4 rows by calendar
id, flushing a calendar's buffered dates whenever the id changes and once
more after the last row (`prev_calendar_id` starts at the sentinel `-1`, so
an empty row stream flushes calendar `-1`). -/
def phase2_go :
    List (Int × Int) → List (Int × Calendar) → Int → List Int → Nat →
      Except (PopError × List (Int × Calendar)) (List (Int × Calendar) × Nat)
  | [], idm, prev_calendar_id, buf, total => flush_calendar idm prev_calendar_id buf total
  | (calendar_id, date) :: rest, idm, prev_calendar_id, buf, total =>
    let prev_id := if prev_calendar_id = -1 then calendar_id else prev_calendar_id
    if prev_id ≠ calendar_id then
      match flush_calendar idm prev_id buf total with
      | .error e => .error e
      | .ok (idm', total') => phase2_go rest idm' calendar_id [date] total'
    else
      phase2_go rest idm calendar_id (buf ++ [date]) total

def phase2 (entries : List (Int × Int)) (idm : List (Int × Calendar)) :
    Except (PopError × List (Int × Calendar)) (List (Int × Calendar) × Nat) :=
  phase2_go entries idm (-1) [] 0

/-- The per-calendar page-index build of phase 3 (src/src/lib.rs lines
294-327): `first()`/`last()` expect a non-empty date vector, the computed
page size is checked against 0, and the page map is appended via
`extend_from_slice` (bounded by the `heapless` capacity; note the source
sets `first_page_offset` and `page_size` before extending, so a capacity
failure leaves those two fields already written). -/
def build_calendar (calendar : Calendar) : Except (PopError × Calendar) Calendar :=
  match calendar.dates.head? with
  | none => .error (.no_first_date, calendar)
  | some first_date =>
    let last_date := calendar.dates.getLastD 0
    let entry_count := (calendar.dates.length : Int)
    let page_size_tmp := calculate_page_size first_date last_date entry_count
    if page_size_tmp = 0 then
      .error (.page_size_zero, calendar)
    else
      let first_page_offset := Int.tdiv first_date page_size_tmp
      let page_map := create_page_map calendar.dates page_size_tmp first_page_offset
      if MAX_ENTRIES_PER_CALENDAR < calendar.page_map.length + page_map.length then
        .error (.page_map_overflow,
          { calendar with
              first_page_offset := first_page_offset
              page_size := page_size_tmp })
      else
        .ok { calendar with
                first_page_offset := first_page_offset
                page_size := page_size_tmp
                page_map := calendar.page_map ++ page_map }

/-- Phase 3 (src/src/lib.rs lines 288-328): run the page-index builder over
every calendar in iteration order; an `error!` mid-way keeps the already
rebuilt prefix. -/
def phase3 :
    List (Int × Calendar) →
      Except (PopError × List (Int × Calendar)) (List (Int × Calendar))
  | [] => .ok []
  | (calendar_id, calendar) :: rest =>
    match build_calendar calendar with
    | .error (e, cal') => .error (e, (calendar_id, cal') :: rest)
    | .ok cal' =>
      match phase3 rest with
      | .error (e, rest') => .error (e, (calendar_id, cal') :: rest')
      | .ok rest' => .ok ((calendar_id, cal') :: rest')

/-- The function `ensure_cache_populated()` (src/src/lib.rs lines 144-337): fast path on
`filled`, schema validation, phase 1 (enumeration), phase 2 (entry rows),
the loaded-count check, phase 3 (page maps), and finally the control-word
publication.  The result pairs the propagated fatal error (if any) with the
shared state after the run. -/
def ensure_cache_populated (st : CacheState) (ds : DataSource) :
    Option PopError × CacheState :=
  if st.control.filled then (none, st)
  else if !ds.schema_ok then (some .incompatible_db, st)
  else
    match phase1 ds.calendars st.calendar_id_map st.calendar_xuid_id_map 0 0 with
    | (some e, idm, xm, _, _) =>
      (some e, { st with calendar_id_map := idm, calendar_xuid_id_map := xm })
    | (none, idm, xm, calendar_count, total_entry_count) =>
      match phase2 ds.entries idm with
      | .error (e, idm') =>
        (some e, { st with calendar_id_map := idm', calendar_xuid_id_map := xm })
      | .ok (idm', total_entries) =>
        if total_entries ≠ total_entry_count then
          (some (.count_mismatch total_entries total_entry_count),
            { st with calendar_id_map := idm', calendar_xuid_id_map := xm })
        else
          match phase3 idm' with
          | .error (e, idm2) =>
            (some e, { st with calendar_id_map := idm2, calendar_xuid_id_map := xm })
          | .ok idm2 =>
            (none,
              { calendar_id_map := idm2
                calendar_xuid_id_map := xm
                control := ⟨calendar_count, total_entry_count, true⟩ })

/-- The function `kq_cx_invalidate_cache()` (src/src/lib.rs lines 529-539): clear both
maps, reset the control word, return the status string. -/
def kq_cx_invalidate_cache (_st : CacheState) : CacheState × String :=
  (⟨[], [], ⟨0, 0, false⟩⟩, "Cache invalidated.")

/-- The function `kq_cx_add_days_by_id` (src/src/lib.rs lines 541-557): auto-populate,
then look the calendar up (`.ok none` models the not-found warning path)
and run the date arithmetic on the snapshot. -/
def kq_cx_add_days_by_id (st : CacheState) (ds : DataSource)
    (input_date interval calendar_id : Int) :
    Except PopError (Option (Option Int)) × CacheState :=
  match ensure_cache_populated st ds with
  | (some e, st') => (.error e, st')
  | (none, st') =>
    match map_get st'.calendar_id_map calendar_id with
    | none => (.ok none, st')
    | some calendar => (.ok (some (add_calendar_days calendar input_date interval)), st')

/-- The function `get_calendar_xuid_from_id` (src/src/lib.rs lines 359-368); `none`
models the `unwrap` panic when no xuid maps to the id. -/
def get_calendar_xuid_from_id (m : List (String × Int)) (calendar_id : Int) :
    Option String :=
  (m.find? (fun p => p.2 = calendar_id)).map Prod.fst

/-- The function `get_calendars_info` (src/src/lib.rs lines 370-386), the diagnostic
listing: id, xuid, entry count, page size, page-map length per calendar. -/
def get_calendars_info (st : CacheState) :
    Option (List (Int × String × Int × Int × Int)) :=
  st.calendar_id_map.mapM (fun p =>
    (get_calendar_xuid_from_id st.calendar_xuid_id_map p.1).map (fun x =>
      (p.1, x, (p.2.dates.length : Int), p.2.page_size, (p.2.page_map.length : Int))))

/-- The function `kq_cx_cache_info` (src/src/lib.rs lines 388-400): a read-only
diagnostic; the state is returned untouched. -/
def kq_cx_cache_info (st : CacheState) :
    Option (List (Int × String × Int × Int × Int)) × CacheState :=
  (get_calendars_info st, st)

/-! ## Claim C4 -/

/-- Entry 0 of a characterized page map is 0. -/
theorem pm_char_zero {dates : List Int} {ps fpo : Int} {pm : List Nat}
    (h : pm_char dates ps fpo pm) (hzero : page_of ps fpo (dates.getD 0 0) = 0)
    (hlen : 0 < pm.length) : pm.getD 0 0 = 0 := by
  by_contra h0
  obtain ⟨_, _, h3⟩ := h 0 hlen
  have := h3 0 (by omega)
  omega

/-- C4 amended: for every calendar whose page index was built from a
still-empty `page_map` — the case of every calendar of a fill that starts
from an empty or freshly invalidated cache, since the builder appends to the
existing `page_map` rather than clearing it; the C4 counterexample shows the
leftover-calendar case where this fails — and whose dates are non-empty and
strictly ascending per the DataSource ordering contract: the page map starts
at 0, is monotone, entry `k` is the smallest index `i` with
`dates[i]/page_size - first_page_offset ≥ k`, and the page-map length is one
plus the page index of the last date. -/
theorem c4_page_map_properties (cal cal' : Calendar)
    (hsorted : List.Pairwise (· < ·) cal.dates) (hne : cal.dates ≠ [])
    (hpm0 : cal.page_map = [])
    (hok : build_calendar cal = Except.ok cal') :
    cal'.dates = cal.dates ∧
    cal'.page_map.getD 0 0 = 0 ∧
    (∀ k k' : Nat, k ≤ k' → k' < cal'.page_map.length →
      cal'.page_map.getD k 0 ≤ cal'.page_map.getD k' 0) ∧
    (∀ k : Nat, k < cal'.page_map.length →
      cal'.page_map.getD k 0 < cal'.dates.length ∧
      (k : Int) ≤ page_of cal'.page_size cal'.first_page_offset
        (cal'.dates.getD (cal'.page_map.getD k 0) 0) ∧
      (∀ j : Nat, j < cal'.page_map.getD k 0 →
        page_of cal'.page_size cal'.first_page_offset (cal'.dates.getD j 0) < (k : Int))) ∧
    (cal'.page_map.length : Int) =
      page_of cal'.page_size cal'.first_page_offset
        (cal'.dates.getD (cal'.dates.length - 1) 0) + 1 := by
  cases hh : cal.dates.head? with
  | none =>
    rw [List.head?_eq_none_iff] at hh
    exact absurd hh hne
  | some fd =>
    have hfd : fd = cal.dates.getD 0 0 := by
      cases hdc : cal.dates with
      | nil => exact absurd hdc hne
      | cons a t =>
        rw [hdc] at hh
        simpa using hh.symm
    unfold build_calendar at hok
    rw [hh] at hok
    dsimp only at hok
    have hps_pos : 0 < calculate_page_size fd (cal.dates.getLastD 0)
        (cal.dates.length : Int) := calculate_page_size_pos _ _ _
    rw [if_neg (by omega)] at hok
    set ps := calculate_page_size fd (cal.dates.getLastD 0) (cal.dates.length : Int)
      with hps_def
    set fpo := Int.tdiv fd ps with hfpo_def
    by_cases hcap : MAX_ENTRIES_PER_CALENDAR <
        cal.page_map.length + (create_page_map cal.dates ps fpo).length
    · rw [if_pos hcap] at hok
      exact absurd hok (by simp)
    · rw [if_neg hcap] at hok
      have hcal' : cal' = { cal with
          first_page_offset := fpo
          page_size := ps
          page_map := cal.page_map ++ create_page_map cal.dates ps fpo } := by
        injection hok with h
        exact h.symm
      have hd' : cal'.dates = cal.dates := by rw [hcal']
      have hps' : cal'.page_size = ps := by rw [hcal']
      have hfpo' : cal'.first_page_offset = fpo := by rw [hcal']
      have hpm' : cal'.page_map = create_page_map cal.dates ps fpo := by
        rw [hcal']
        simp [hpm0]
      obtain ⟨hlen_pm, hchar⟩ := create_page_map_spec cal.dates ps fpo hps_pos hne hsorted
        (by rw [hfpo_def, hfd])
      have hzero : page_of ps fpo (cal.dates.getD 0 0) = 0 := by
        unfold page_of
        rw [hfpo_def, hfd]
        omega
      rw [hd', hps', hfpo', hpm']
      refine ⟨rfl, ?_, ?_, hchar, ?_⟩
      · exact pm_char_zero hchar hzero (by omega)
      · intro k k' hkk hk'
        exact pm_char_mono hchar hkk hk'
      · have hn : 0 < cal.dates.length := List.length_pos.mpr hne
        have hlast0 : 0 ≤ page_of ps fpo (cal.dates.getD (cal.dates.length - 1) 0) := by
          have := page_of_mono hps_pos fpo
            (sorted_getD_le hsorted (Nat.zero_le (cal.dates.length - 1)) (by omega))
          omega
        omega

/-- C4 witness: building the fresh calendar `[0, 20, 40]` yields page size
32, offset 0, page map `[0, 2]`, which satisfies all four properties. -/
theorem c4_witness :
    (Calendar.mk [0, 20, 40] 32 0 [0, 2]).dates = (Calendar.mk [0, 20, 40] 0 0 []).dates ∧
    (Calendar.mk [0, 20, 40] 32 0 [0, 2]).page_map.getD 0 0 = 0 ∧
    (∀ k k' : Nat, k ≤ k' → k' < (Calendar.mk [0, 20, 40] 32 0 [0, 2]).page_map.length →
      (Calendar.mk [0, 20, 40] 32 0 [0, 2]).page_map.getD k 0 ≤
        (Calendar.mk [0, 20, 40] 32 0 [0, 2]).page_map.getD k' 0) ∧
    (∀ k : Nat, k < (Calendar.mk [0, 20, 40] 32 0 [0, 2]).page_map.length →
      (Calendar.mk [0, 20, 40] 32 0 [0, 2]).page_map.getD k 0 <
        (Calendar.mk [0, 20, 40] 32 0 [0, 2]).dates.length ∧
      (k : Int) ≤ page_of 32 0
        ((Calendar.mk [0, 20, 40] 32 0 [0, 2]).dates.getD
          ((Calendar.mk [0, 20, 40] 32 0 [0, 2]).page_map.getD k 0) 0) ∧
      (∀ j : Nat, j < (Calendar.mk [0, 20, 40] 32 0 [0, 2]).page_map.getD k 0 →
        page_of 32 0 ((Calendar.mk [0, 20, 40] 32 0 [0, 2]).dates.getD j 0) < (k : Int))) ∧
    ((Calendar.mk [0, 20, 40] 32 0 [0, 2]).page_map.length : Int) =
      page_of 32 0 ((Calendar.mk [0, 20, 40] 32 0 [0, 2]).dates.getD 2 0) + 1 :=
  c4_page_map_properties (Calendar.mk [0, 20, 40] 0 0 [])
    (Calendar.mk [0, 20, 40] 32 0 [0, 2]) (by decide) (by decide) rfl rfl

/-- C4 counterexample: the claim quantifies over every calendar present in
the store after a successful fill, but the page-index build (src/src/lib.rs
line 326) appends to the calendar's existing `page_map` without clearing
it.  Run 1 enumerates calendars 1 and 2 with entry rows only for calendar 1:
phase 3 builds calendar 1 (page map `[0, 2]`) and then aborts on calendar
2's empty date vector, leaving calendar 1 built and `filled = false`.  Run 2
re-enumerates only calendar 2 (resetting it) and succeeds — but phase 3 runs
the builder on the leftover calendar 1 again, appending a second copy of its
page map.  The store after this successful fill holds calendar 1 with page
map `[0, 2, 0, 2]`, which is not monotonically non-decreasing. -/
theorem c4_counterexample :
    (ensure_cache_populated empty_state
      (DataSource.mk true [(1, 3, "a"), (2, 0, "b")] [(1, 0), (1, 20), (1, 40)])).1.isSome ∧
    (ensure_cache_populated
      (ensure_cache_populated empty_state
        (DataSource.mk true [(1, 3, "a"), (2, 0, "b")] [(1, 0), (1, 20), (1, 40)])).2
      (DataSource.mk true [(2, 1, "b")] [(2, 5)])).1 = none ∧
    (ensure_cache_populated
      (ensure_cache_populated empty_state
        (DataSource.mk true [(1, 3, "a"), (2, 0, "b")] [(1, 0), (1, 20), (1, 40)])).2
      (DataSource.mk true [(2, 1, "b")] [(2, 5)])).2.control.filled = true ∧
    map_get (ensure_cache_populated
      (ensure_cache_populated empty_state
        (DataSource.mk true [(1, 3, "a"), (2, 0, "b")] [(1, 0), (1, 20), (1, 40)])).2
      (DataSource.mk true [(2, 1, "b")] [(2, 5)])).2.calendar_id_map 1 =
      some (Calendar.mk [0, 20, 40] 32 0 [0, 2, 0, 2]) ∧
    ¬ ((Calendar.mk [0, 20, 40] 32 0 [0, 2, 0, 2]).page_map.getD 1 0 ≤
       (Calendar.mk [0, 20, 40] 32 0 [0, 2, 0, 2]).page_map.getD 2 0) :=
  ⟨by decide, by decide, by decide, by decide, by decide⟩

/-! ## Key-set lemmas for the population phases -/

theorem map_update_keys {K V : Type} [DecidableEq K] (k : K) (v : V) :
    ∀ m : List (K × V), (map_update m k v).map Prod.fst = m.map Prod.fst := by
  intro m
  induction m with
  | nil => rfl
  | cons p rest ih =>
    obtain ⟨k', v'⟩ := p
    unfold map_update
    by_cases h : k' = k
    · rw [if_pos h]
      simp [h]
    · rw [if_neg h]
      simp only [List.map_cons]
      rw [ih]

theorem map_insert_not_mem {K V : Type} [DecidableEq K] {m : List (K × V)} {k : K}
    (h : k ∉ m.map Prod.fst) (v : V) (cap : Nat) :
    map_insert m k v cap = if m.length < cap then some (m ++ [(k, v)]) else none := by
  unfold map_insert
  rw [if_neg h]

/-- A failed flush returns the map unchanged. -/
theorem flush_calendar_error_keys {idm : List (Int × Calendar)} {p : Int} {buf : List Int}
    {total : Nat} {e : PopError} {idm2 : List (Int × Calendar)}
    (h : flush_calendar idm p buf total = .error (e, idm2)) : idm2 = idm := by
  unfold flush_calendar at h
  cases hg : map_get idm p with
  | none =>
    simp only [hg, Except.error.injEq, Prod.mk.injEq] at h
    exact h.2.symm
  | some cal =>
    simp only [hg] at h
    split at h
    · simp only [Except.error.injEq, Prod.mk.injEq] at h
      exact h.2.symm
    · exact absurd h (by simp)

/-- A successful flush only updates a value in place: the key list is
unchanged, and the map was necessarily non-empty. -/
theorem flush_calendar_ok {idm : List (Int × Calendar)} {p : Int} {buf : List Int}
    {total : Nat} {idm2 : List (Int × Calendar)} {total2 : Nat}
    (h : flush_calendar idm p buf total = .ok (idm2, total2)) :
    idm2.map Prod.fst = idm.map Prod.fst ∧ idm ≠ [] := by
  unfold flush_calendar at h
  cases hg : map_get idm p with
  | none =>
    simp only [hg] at h
    exact absurd h (by simp)
  | some cal =>
    simp only [hg] at h
    split at h
    · exact absurd h (by simp)
    · simp only [Except.ok.injEq, Prod.mk.injEq] at h
      constructor
      · rw [← h.1]
        exact map_update_keys _ _ idm
      · intro hnil
        rw [hnil] at hg
        simp [map_get] at hg

/-- Both outcomes of the phase-2 loop preserve the key list; a successful
run moreover implies the map was non-empty (the final flush looked a key
up). -/
theorem phase2_go_keys :
    ∀ (rows : List (Int × Int)) (idm : List (Int × Calendar)) (prev : Int)
      (buf : List Int) (total : Nat),
      (∀ idm2 total2, phase2_go rows idm prev buf total = .ok (idm2, total2) →
        idm2.map Prod.fst = idm.map Prod.fst ∧ idm ≠ []) ∧
      (∀ e idm2, phase2_go rows idm prev buf total = .error (e, idm2) →
        idm2.map Prod.fst = idm.map Prod.fst) := by
  intro rows
  induction rows with
  | nil =>
    intro idm prev buf total
    constructor
    · intro idm2 total2 h
      exact flush_calendar_ok h
    · intro e idm2 h
      rw [flush_calendar_error_keys h]
  | cons rd rest ih =>
    obtain ⟨cid, date⟩ := rd
    intro idm prev buf total
    by_cases hpr : (if prev = -1 then cid else prev) ≠ cid
    · constructor
      · intro idm2 total2 h
        simp only [phase2_go, if_pos hpr] at h
        cases hf : flush_calendar idm (if prev = -1 then cid else prev) buf total with
        | error pr =>
          simp [hf] at h
        | ok pr =>
          obtain ⟨idm', t'⟩ := pr
          simp only [hf] at h
          obtain ⟨hk1, hne1⟩ := (ih idm' cid [date] t').1 idm2 total2 h
          obtain ⟨hk0, _⟩ := flush_calendar_ok hf
          exact ⟨hk1.trans hk0, (flush_calendar_ok hf).2⟩
      · intro e idm2 h
        simp only [phase2_go, if_pos hpr] at h
        cases hf : flush_calendar idm (if prev = -1 then cid else prev) buf total with
        | error pr =>
          obtain ⟨e', idmf⟩ := pr
          simp only [hf] at h
          injection h with h1
          injection h1 with h2 h3
          rw [← h3, flush_calendar_error_keys hf]
        | ok pr =>
          obtain ⟨idm', t'⟩ := pr
          simp only [hf] at h
          have hk1 := (ih idm' cid [date] t').2 e idm2 h
          obtain ⟨hk0, _⟩ := flush_calendar_ok hf
          exact hk1.trans hk0
    · constructor
      · intro idm2 total2 h
        simp only [phase2_go, if_neg hpr] at h
        exact (ih idm cid (buf ++ [date]) total).1 idm2 total2 h
      · intro e idm2 h
        simp only [phase2_go, if_neg hpr] at h
        exact (ih idm cid (buf ++ [date]) total).2 e idm2 h

/-- Both outcomes of phase 3 preserve the key list. -/
theorem phase3_keys :
    ∀ m : List (Int × Calendar),
      (∀ m2, phase3 m = .ok m2 → m2.map Prod.fst = m.map Prod.fst) ∧
      (∀ e m2, phase3 m = .error (e, m2) → m2.map Prod.fst = m.map Prod.fst) := by
  intro m
  induction m with
  | nil =>
    constructor
    · intro m2 h
      simp only [phase3] at h
      injection h with h1
      rw [← h1]
    · intro e m2 h
      simp only [phase3] at h
      exact absurd h (by simp)
  | cons p rest ih =>
    obtain ⟨cid, cal⟩ := p
    constructor
    · intro m2 h
      simp only [phase3] at h
      cases hb : build_calendar cal with
      | error pr =>
        obtain ⟨e', cal''⟩ := pr
        simp [hb] at h
      | ok cal' =>
        simp only [hb] at h
        cases hr : phase3 rest with
        | error pr =>
          obtain ⟨e', rest''⟩ := pr
          simp [hr] at h
        | ok rest' =>
          simp only [hr] at h
          injection h with h1
          rw [← h1]
          simp only [List.map_cons]
          rw [ih.1 rest' hr]
    · intro e m2 h
      simp only [phase3] at h
      cases hb : build_calendar cal with
      | error pr =>
        obtain ⟨e', cal''⟩ := pr
        simp only [hb] at h
        injection h with h1
        injection h1 with h2 h3
        rw [← h3]
        simp
      | ok cal' =>
        simp only [hb] at h
        cases hr : phase3 rest with
        | error pr =>
          obtain ⟨e', rest''⟩ := pr
          simp only [hr] at h
          injection h with h1
          injection h1 with h2 h3
          rw [← h3]
          simp only [List.map_cons]
          rw [ih.2 e' rest'' hr]
        | ok rest' =>
          simp [hr] at h

/-- The phase-1 step equation in the successful case. -/
theorem phase1_cons_eq (id : Int) (entry_count : Nat) (xuid : String)
    (rest : List (Int × Nat × String)) (idm : List (Int × Calendar))
    (xm : List (String × Int)) (cc tec : Nat)
    (hc : ¬ MAX_ENTRIES_PER_CALENDAR < entry_count)
    {idm' : List (Int × Calendar)} {xm' : List (String × Int)}
    (hins : map_insert idm id Calendar.default MAX_CALENDARS = some idm')
    (hinsx : map_insert xm xuid id MAX_CALENDARS = some xm') :
    phase1 ((id, entry_count, xuid) :: rest) idm xm cc tec =
      phase1 rest idm' xm' (cc + 1) (tec + entry_count) := by
  simp only [phase1, if_neg hc, hins, hinsx]

/-- Phase 1 keeps the id-map key list and the xuid-map value list equal (and
the two maps the same length), whether it completes or aborts, provided the
ids and xuids of the enumeration are duplicate-free and fresh. -/
theorem phase1_keys :
    ∀ (rows : List (Int × Nat × String)) (idm : List (Int × Calendar))
      (xm : List (String × Int)) (cc tec : Nat),
      idm.map Prod.fst = xm.map Prod.snd →
      idm.length = xm.length →
      (∀ r ∈ rows, r.1 ∉ idm.map Prod.fst) →
      (∀ r ∈ rows, r.2.2 ∉ xm.map Prod.fst) →
      (rows.map fun r => r.1).Nodup →
      (rows.map fun r => r.2.2).Nodup →
      (phase1 rows idm xm cc tec).2.1.map Prod.fst =
          (phase1 rows idm xm cc tec).2.2.1.map Prod.snd ∧
        (phase1 rows idm xm cc tec).2.1.length =
          (phase1 rows idm xm cc tec).2.2.1.length := by
  intro rows
  induction rows with
  | nil =>
    intro idm xm cc tec h1 h2 _ _ _ _
    exact ⟨h1, h2⟩
  | cons r rest ih =>
    obtain ⟨id, entry_count, xuid⟩ := r
    intro idm xm cc tec h1 h2 hnid hnx hnd1 hnd2
    by_cases hc : MAX_ENTRIES_PER_CALENDAR < entry_count
    · simp only [phase1, if_pos hc]
      exact ⟨h1, h2⟩
    · have hid_nm : id ∉ idm.map Prod.fst :=
        hnid (id, entry_count, xuid) (List.mem_cons_self _ _)
      have hx_nm : xuid ∉ xm.map Prod.fst :=
        hnx (id, entry_count, xuid) (List.mem_cons_self _ _)
      by_cases hcap : idm.length < MAX_CALENDARS
      · have hins : map_insert idm id Calendar.default MAX_CALENDARS =
            some (idm ++ [(id, Calendar.default)]) := by
          rw [map_insert_not_mem hid_nm, if_pos hcap]
        have hinsx : map_insert xm xuid id MAX_CALENDARS = some (xm ++ [(xuid, id)]) := by
          rw [map_insert_not_mem hx_nm, if_pos (by omega)]
        rw [phase1_cons_eq id entry_count xuid rest idm xm cc tec hc hins hinsx]
        simp only [List.map_cons] at hnd1 hnd2
        have hnd1' := List.nodup_cons.mp hnd1
        have hnd2' := List.nodup_cons.mp hnd2
        apply ih
        · simp [h1]
        · simp [h2]
        · intro r hr
          simp only [List.map_append, List.mem_append]
          rintro (hin | hin)
          · exact hnid r (List.mem_cons_of_mem _ hr) hin
          · have hin' : r.1 = id := by simpa using hin
            exact hnd1'.1 (List.mem_map.mpr ⟨r, hr, hin'⟩)
        · intro r hr
          simp only [List.map_append, List.mem_append]
          rintro (hin | hin)
          · exact hnx r (List.mem_cons_of_mem _ hr) hin
          · have hin' : r.2.2 = xuid := by simpa using hin
            exact hnd2'.1 (List.mem_map.mpr ⟨r, hr, hin'⟩)
        · exact hnd1'.2
        · exact hnd2'.2
      · have hins : map_insert idm id Calendar.default MAX_CALENDARS = none := by
          rw [map_insert_not_mem hid_nm, if_neg hcap]
        simp only [phase1, if_neg hc, hins]
        exact ⟨h1, h2⟩

/-! ## Claim C5 -/

/-- C5 counterexample: populating the empty cache from a DataSource whose
entry stream references the unknown calendar id 2 fails with a fatal error,
but the shared state afterwards is NOT the pre-run state: calendar 1 and its
xuid, inserted before the error, remain in the maps (`error!` does not roll
shared memory back). -/
theorem c5_counterexample :
    (ensure_cache_populated empty_state (DataSource.mk true [(1, 1, "a")] [(2, 5)])).1.isSome ∧
    (ensure_cache_populated empty_state (DataSource.mk true [(1, 1, "a")] [(2, 5)])).2 ≠
      empty_state ∧
    (ensure_cache_populated empty_state
      (DataSource.mk true [(1, 1, "a")] [(2, 5)])).2.calendar_id_map ≠ [] :=
  ⟨by decide, by decide, by decide⟩

/-- C5 amended: a failed population run propagates the error and leaves the
control word (including the `filled` flag) unchanged, so a retry is
possible; the maps, however, may retain entries inserted before the error. -/
theorem c5_amended (st : CacheState) (ds : DataSource)
    (herr : (ensure_cache_populated st ds).1.isSome) :
    (ensure_cache_populated st ds).2.control = st.control := by
  have key : ∀ r : Option PopError × CacheState,
      ensure_cache_populated st ds = r → r.1.isSome → r.2.control = st.control := by
    intro r hr hsome
    unfold ensure_cache_populated at hr
    by_cases hf : st.control.filled
    · rw [if_pos hf] at hr
      subst hr
      simp at hsome
    · rw [if_neg hf] at hr
      cases hsb : ds.schema_ok with
      | false =>
        rw [if_pos (by rw [hsb]; rfl)] at hr
        subst hr
        rfl
      | true =>
        rw [if_neg (by rw [hsb]; simp)] at hr
        rcases hp1 : phase1 ds.calendars st.calendar_id_map st.calendar_xuid_id_map 0 0
          with ⟨oe, idm, xm, cc, tec⟩
        rw [hp1] at hr
        cases oe with
        | some e =>
          dsimp only at hr
          subst hr
          rfl
        | none =>
          dsimp only at hr
          cases hp2 : phase2 ds.entries idm with
          | error pr =>
            obtain ⟨e2, idm'⟩ := pr
            rw [hp2] at hr
            dsimp only at hr
            subst hr
            rfl
          | ok pr =>
            obtain ⟨idm', tot⟩ := pr
            rw [hp2] at hr
            dsimp only at hr
            by_cases hcnt : tot ≠ tec
            · rw [if_pos hcnt] at hr
              subst hr
              rfl
            · rw [if_neg hcnt] at hr
              cases hp3 : phase3 idm' with
              | error pr2 =>
                obtain ⟨e3, idm2⟩ := pr2
                rw [hp3] at hr
                dsimp only at hr
                subst hr
                rfl
              | ok idm2 =>
                rw [hp3] at hr
                dsimp only at hr
                subst hr
                simp at hsome
  exact key _ rfl herr

/-- C5 amended witness: the failed run of the counterexample leaves the
control word of the empty state unchanged (in particular `filled = false`). -/
theorem c5_amended_witness :
    (ensure_cache_populated empty_state (DataSource.mk true [(1, 1, "a")] [(2, 5)])).2.control =
      empty_state.control :=
  c5_amended empty_state (DataSource.mk true [(1, 1, "a")] [(2, 5)]) (by decide)

/-! ## Claim C9 -/

/-- C9: with an empty enumeration (and hence an empty entry stream),
population from the empty cache always fails — the finalizing flush looks up
the sentinel calendar id `-1`, which is not in the map — and the cache never
becomes filled.  Conversely, a run from an unfilled state that succeeds
leaves at least one calendar in the id map. -/
theorem c9_empty_enumeration :
    (∀ ds : DataSource, ds.calendars = [] → ds.entries = [] →
      (ensure_cache_populated empty_state ds).1.isSome ∧
      (ensure_cache_populated empty_state ds).2.control.filled = false) ∧
    (∀ (st : CacheState) (ds : DataSource), st.control.filled = false →
      (ensure_cache_populated st ds).1 = none →
      (ensure_cache_populated st ds).2.calendar_id_map ≠ []) := by
  constructor
  · intro ds h1 h2
    obtain ⟨sok, cals, ents⟩ := ds
    dsimp only at h1 h2
    subst h1
    subst h2
    cases sok
    · exact ⟨by decide, by decide⟩
    · exact ⟨by decide, by decide⟩
  · intro st ds hf hnone
    have key : ∀ r : Option PopError × CacheState, ensure_cache_populated st ds = r →
        r.1 = none → r.2.calendar_id_map ≠ [] := by
      intro r hr hnone'
      unfold ensure_cache_populated at hr
      rw [if_neg (by rw [hf]; simp)] at hr
      cases hsb : ds.schema_ok with
      | false =>
        rw [if_pos (by rw [hsb]; rfl)] at hr
        subst hr
        simp at hnone'
      | true =>
        rw [if_neg (by rw [hsb]; simp)] at hr
        rcases hp1 : phase1 ds.calendars st.calendar_id_map st.calendar_xuid_id_map 0 0
          with ⟨oe, idm, xm, cc, tec⟩
        rw [hp1] at hr
        cases oe with
        | some e =>
          dsimp only at hr
          subst hr
          simp at hnone'
        | none =>
          dsimp only at hr
          cases hp2 : phase2 ds.entries idm with
          | error pr =>
            obtain ⟨e2, idm'⟩ := pr
            rw [hp2] at hr
            dsimp only at hr
            subst hr
            simp at hnone'
          | ok pr =>
            obtain ⟨idm', tot⟩ := pr
            rw [hp2] at hr
            dsimp only at hr
            by_cases hcnt : tot ≠ tec
            · rw [if_pos hcnt] at hr
              subst hr
              simp at hnone'
            · rw [if_neg hcnt] at hr
              cases hp3 : phase3 idm' with
              | error pr2 =>
                obtain ⟨e3, idm2⟩ := pr2
                rw [hp3] at hr
                dsimp only at hr
                subst hr
                simp at hnone'
              | ok idm2 =>
                rw [hp3] at hr
                dsimp only at hr
                subst hr
                obtain ⟨hk2, hne2⟩ := (phase2_go_keys ds.entries idm (-1) [] 0).1 idm' tot hp2
                have hk3 := (phase3_keys idm').1 idm2 hp3
                intro hnil
                dsimp only at hnil
                rw [hnil] at hk3
                have hidm' : idm' = [] := by simpa using hk3.symm
                rw [hidm'] at hk2
                exact hne2 (by simpa using hk2.symm)
    exact key _ rfl hnone

/-- C9 witness: the empty DataSource fails and leaves `filled = false`; the
one-calendar DataSource succeeds and leaves a non-empty map. -/
theorem c9_witness :
    ((ensure_cache_populated empty_state (DataSource.mk true [] [])).1.isSome ∧
      (ensure_cache_populated empty_state (DataSource.mk true [] [])).2.control.filled = false) ∧
    (ensure_cache_populated empty_state
      (DataSource.mk true [(1, 1, "a")] [(1, 5)])).2.calendar_id_map ≠ [] :=
  ⟨c9_empty_enumeration.1 (DataSource.mk true [] []) rfl rfl,
    c9_empty_enumeration.2 empty_state (DataSource.mk true [(1, 1, "a")] [(1, 5)]) rfl
      (by decide)⟩

/-! ## Claim C6 -/

/-- C6 amended: within one fill cycle the two maps are kept mutually
consistent: population from the empty cache (successful or failed) leaves
the id-map key list equal to the xuid-map value list — phase 1 inserts into
both maps in lockstep (the DataSource enumeration has duplicate-free ids and
xuids) and phases 2 and 3 only update values in place; invalidation clears
both maps together; a lookup's state is exactly the population's state; the
diagnostic listing does not touch the state.  A populate retried on the
leftover state of a failed run against a changed DataSource is not covered:
the C6 counterexample shows it can leave the maps inconsistent. -/
theorem c6_maps_consistent :
    (∀ ds : DataSource,
      (ds.calendars.map fun r => r.1).Nodup →
      (ds.calendars.map fun r => r.2.2).Nodup →
      (ensure_cache_populated empty_state ds).2.calendar_id_map.map Prod.fst =
        (ensure_cache_populated empty_state ds).2.calendar_xuid_id_map.map Prod.snd) ∧
    (∀ st : CacheState, (kq_cx_invalidate_cache st).1.calendar_id_map = [] ∧
      (kq_cx_invalidate_cache st).1.calendar_xuid_id_map = [] ∧
      (kq_cx_invalidate_cache st).1.control.filled = false) ∧
    (∀ (ds : DataSource) (input_date interval calendar_id : Int),
      (kq_cx_add_days_by_id empty_state ds input_date interval calendar_id).2 =
        (ensure_cache_populated empty_state ds).2) ∧
    (∀ st : CacheState, (kq_cx_cache_info st).2 = st) := by
  refine ⟨?_, fun st => ⟨rfl, rfl, rfl⟩, ?_, fun st => rfl⟩
  · intro ds hnd1 hnd2
    have hp1k := phase1_keys ds.calendars [] [] 0 0 rfl rfl (by simp) (by simp) hnd1 hnd2
    have key : ∀ r : Option PopError × CacheState, ensure_cache_populated empty_state ds = r →
        r.2.calendar_id_map.map Prod.fst = r.2.calendar_xuid_id_map.map Prod.snd := by
      intro r hr
      unfold ensure_cache_populated at hr
      simp only [empty_state] at hr
      rw [if_neg (by decide)] at hr
      cases hsb : ds.schema_ok with
      | false =>
        rw [if_pos (by rw [hsb]; rfl)] at hr
        subst hr
        rfl
      | true =>
        rw [if_neg (by rw [hsb]; simp)] at hr
        rcases hp1 : phase1 ds.calendars [] [] 0 0 with ⟨oe, idm, xm, cc, tec⟩
        rw [hp1] at hr
        rw [hp1] at hp1k
        cases oe with
        | some e =>
          dsimp only at hr
          subst hr
          exact hp1k.1
        | none =>
          dsimp only at hr
          cases hp2 : phase2 ds.entries idm with
          | error pr =>
            obtain ⟨e2, idm'⟩ := pr
            rw [hp2] at hr
            dsimp only at hr
            subst hr
            have hk := (phase2_go_keys ds.entries idm (-1) [] 0).2 e2 idm' hp2
            exact hk.trans hp1k.1
          | ok pr =>
            obtain ⟨idm', tot⟩ := pr
            rw [hp2] at hr
            dsimp only at hr
            have hk := ((phase2_go_keys ds.entries idm (-1) [] 0).1 idm' tot hp2).1
            by_cases hcnt : tot ≠ tec
            · rw [if_pos hcnt] at hr
              subst hr
              exact hk.trans hp1k.1
            · rw [if_neg hcnt] at hr
              cases hp3 : phase3 idm' with
              | error pr2 =>
                obtain ⟨e3, idm2⟩ := pr2
                rw [hp3] at hr
                dsimp only at hr
                subst hr
                have hk3 := (phase3_keys idm').2 e3 idm2 hp3
                exact (hk3.trans hk).trans hp1k.1
              | ok idm2 =>
                rw [hp3] at hr
                dsimp only at hr
                subst hr
                have hk3 := (phase3_keys idm').1 idm2 hp3
                exact (hk3.trans hk).trans hp1k.1
    exact key _ rfl
  · intro ds input_date interval calendar_id
    unfold kq_cx_add_days_by_id
    rcases hres : ensure_cache_populated empty_state ds with ⟨oe, st'⟩
    cases oe with
    | some e => rfl
    | none =>
      dsimp only
      cases hm : map_get st'.calendar_id_map calendar_id with
      | none => simp only [hm]
      | some cal => simp only [hm]

/-- C6 witness: a successful one-calendar population from the empty state
has matching id-map keys and xuid-map values. -/
theorem c6_witness :
    (ensure_cache_populated empty_state
        (DataSource.mk true [(1, 1, "a")] [(1, 5)])).2.calendar_id_map.map Prod.fst =
      (ensure_cache_populated empty_state
        (DataSource.mk true [(1, 1, "a")] [(1, 5)])).2.calendar_xuid_id_map.map Prod.snd :=
  c6_maps_consistent.1 (DataSource.mk true [(1, 1, "a")] [(1, 5)]) (by decide) (by decide)

/-- C6 counterexample: the claim covers every completed public operation
including failed population runs and retries, but a retry on the leftover
state of a failed run against a changed DataSource breaks the invariant.
Run 1 (enumeration `(1, "a")`, entry rows for the unknown id 2) fails in
phase 2, leaving id map `{1}` and xuid map `{"a" -> 1}`.  Run 2, whose
enumeration renumbers the calendar to `(2, "a")`, appends id 2 to the id map
but re-points the existing xuid `"a"` to 2, then fails in phase 3 (the
leftover calendar 1 has no dates).  After this completed operation the id
map holds calendars `{1, 2}` while the xuid map references only `{2}`:
calendar 1 is in one map and not the other, so the maps are neither both
empty nor entries for the same set of calendars. -/
theorem c6_counterexample :
    (ensure_cache_populated empty_state
      (DataSource.mk true [(1, 1, "a")] [(2, 5)])).1.isSome ∧
    (ensure_cache_populated
      (ensure_cache_populated empty_state (DataSource.mk true [(1, 1, "a")] [(2, 5)])).2
      (DataSource.mk true [(2, 1, "a")] [(2, 5)])).1.isSome ∧
    (1 : Int) ∈ (ensure_cache_populated
      (ensure_cache_populated empty_state (DataSource.mk true [(1, 1, "a")] [(2, 5)])).2
      (DataSource.mk true [(2, 1, "a")] [(2, 5)])).2.calendar_id_map.map Prod.fst ∧
    (1 : Int) ∉ (ensure_cache_populated
      (ensure_cache_populated empty_state (DataSource.mk true [(1, 1, "a")] [(2, 5)])).2
      (DataSource.mk true [(2, 1, "a")] [(2, 5)])).2.calendar_xuid_id_map.map Prod.snd :=
  ⟨by decide, by decide, by decide, by decide⟩
